import Mathlib

/-!
# Verification of the extended-Brainfuck toolchain

A shallow embedding of the interpreter (`src/bf.rs`) and the SIL compiler
(`src/bfl.rs`) of the repository, together with theorems settling the
specification claims.

Modelling conventions:
* `u32` cell values are `Nat` reduced modulo `2 ^ 32` at every write
  (`wrapping_add` / `wrapping_sub`); `usize` arithmetic that can wrap is
  reduced modulo `2 ^ 64` (release-mode two's-complement semantics).
* The fixed-size tape `vec![0u32; 65536]` is modelled as a function
  `Nat → Nat` together with the constant length `CELLS_LEN`.
* Ambient process state (stdin, stdout, the kernel) is threaded through the
  state explicitly: `input` is the unread bytes of stdin, `printed` the bytes
  written to stdout by base-mode `.`, and `host` an oracle standing for the
  kernel, mapping (syscall number, scalar arguments, marshalled buffer) to
  either failure or (return value, auxiliary bytes such as data read).
* Error values carry no message strings; only the error kind is modelled.
* The interpreter's inner bracket-matching `while` loops are written with an
  explicit fuel argument so that they are structurally recursive; every call
  site passes `code.length + 1`, which the lemmas below show is never
  exhausted before the loop resolves.
-/

def U32MOD : Nat := 4294967296

def USIZEMOD : Nat := 18446744073709551616

def CELLS_LEN : Nat := 65536

inductive BFError where
  | invalidSyscall
  | memoryAccess
  | invalidFileDescriptor
  | syscallFailed
  | bracketMismatch
deriving DecidableEq

inductive Mode where
  | BF
  | BFA
deriving DecidableEq

/-- Reply of the kernel oracle: failure, or (return value, auxiliary bytes). -/
def HostReply : Type := Except Unit (Nat × List Nat)

/-- Interpreter state of `struct BF` in `src/bf.rs`, extended with the ambient
process state (stdin, stdout, kernel oracle) needed by a pure embedding. -/
structure BF where
  cells : Nat → Nat
  ptr : Nat
  code : List Char
  pc : Nat
  output : List Nat
  mode : Mode
  input : List Nat
  printed : List Nat
  host : Nat → List Nat → List Nat → HostReply

/-- `BF::new`: 65536 zeroed cells, pointer and pc at zero, empty output.
The ambient stdin contents and kernel oracle are extra parameters. -/
def BF.new (code : List Char) (mode : Mode) (host : Nat → List Nat → List Nat → HostReply)
    (input : List Nat) : BF :=
  { cells := fun _ => 0, ptr := 0, code := code, pc := 0, output := [],
    mode := mode, input := input, printed := [], host := host }

/-- Pointwise update of the tape (`self.cells[i] = v`). -/
def setCell (cells : Nat → Nat) (i : Nat) (v : Nat) : Nat → Nat :=
  fun j => if j = i then v else cells j

/-- `BF::dump_cells`: the slice `&self.cells[..n.min(self.cells.len())]`. -/
def dump_cells (st : BF) (n : Nat) : List Nat :=
  (List.range (min n CELLS_LEN)).map st.cells

/-- Bracket-depth contribution of one character. -/
def delta (c : Char) : Int :=
  if c = '[' then 1 else if c = ']' then -1 else 0

/-- Bracket depth of the length-`j` prefix of `code`. -/
def D : List Char → Nat → Int
  | [], _ => 0
  | _ :: _, 0 => 0
  | c :: rest, j + 1 => delta c + D rest j

/-- The pre-execution bracket scan of `BF::run` (depth goes up on `[`, down on
`]`, must never go negative, and must not be positive at the end). -/
def bracketScan : List Char → Int → Bool
  | [], depth => decide (depth ≤ 0)
  | c :: rest, depth =>
    if c = '[' then bracketScan rest (depth + 1)
    else if c = ']' then
      if depth - 1 < 0 then false else bracketScan rest (depth - 1)
    else bracketScan rest depth

/-- The forward bracket-matching loop of the `[` handler: repeatedly advance
`pos`, failing when the end of the program is passed, until depth returns
to zero.  `fuel` bounds the loop; call sites pass `code.length + 1`. -/
def scanForward (code : List Char) : Nat → Nat → Int → Option Nat
  | 0, pos, depth => if depth ≤ 0 then some pos else none
  | fuel + 1, pos, depth =>
    if depth ≤ 0 then some pos
    else if pos + 1 < code.length then
      scanForward code fuel (pos + 1) (depth + delta (code.getD (pos + 1) ' '))
    else none

/-- The backward bracket-matching loop of the `]` handler: repeatedly retreat
`pos`, failing at position zero, until depth returns to zero. -/
def scanBackward (code : List Char) : Nat → Nat → Int → Option Nat
  | 0, pos, depth => if depth ≤ 0 then some pos else none
  | fuel + 1, pos, depth =>
    if depth ≤ 0 then some pos
    else if pos = 0 then none
    else scanBackward code fuel (pos - 1) (depth - delta (code.getD (pos - 1) ' '))

/-- `BF::execute_bf`: one base-mode step at the current program counter. -/
def executeBF (st : BF) : Except BFError Unit × BF :=
  match st.code.getD st.pc ' ' with
  | '>' =>
    if st.ptr + 1 ≥ CELLS_LEN then (.error .memoryAccess, { st with ptr := st.ptr + 1 })
    else (.ok (), { st with ptr := st.ptr + 1 })
  | '<' =>
    if st.ptr = 0 then (.error .memoryAccess, st)
    else (.ok (), { st with ptr := st.ptr - 1 })
  | '+' =>
    (.ok (), { st with cells := setCell st.cells st.ptr ((st.cells st.ptr + 1) % U32MOD) })
  | '-' =>
    (.ok (), { st with cells := setCell st.cells st.ptr ((st.cells st.ptr + (U32MOD - 1)) % U32MOD) })
  | '.' =>
    let b := st.cells st.ptr % 256
    (.ok (), { st with output := st.output ++ [b], printed := st.printed ++ [b] })
  | ',' =>
    match st.input with
    | [] => (.error .syscallFailed, st)
    | b :: rest =>
      (.ok (), { st with cells := setCell st.cells st.ptr (b % 256), input := rest })
  | '[' =>
    if st.cells st.ptr = 0 then
      match scanForward st.code (st.code.length + 1) st.pc 1 with
      | none => (.error .bracketMismatch, st)
      | some pos => (.ok (), { st with pc := pos })
    else (.ok (), st)
  | ']' =>
    if st.cells st.ptr = 0 then (.ok (), st)
    else
      match scanBackward st.code (st.code.length + 1) st.pc 1 with
      | none => (.error .bracketMismatch, st)
      | some pos => (.ok (), { st with pc := (pos + (USIZEMOD - 1)) % USIZEMOD })
  | _ => (.ok (), st)

/-- `BF::validate_syscall`: buffer-range checks for read/write, a fixed allow
list for the socket-class numbers, and rejection of everything else. -/
def validate_syscall (len : Nat) (syscall_num : Nat) (args : List Nat) : Except BFError Unit :=
  if syscall_num = 3 then
    let buf_addr := args.getD 1 0
    let buf_len := args.getD 2 0
    if buf_addr ≥ len ∨ buf_len = 0 ∨ buf_addr + buf_len > len then .error .memoryAccess
    else .ok ()
  else if syscall_num = 4 then
    let buf_addr := args.getD 1 0
    let buf_len := args.getD 2 0
    if buf_addr ≥ len ∨ buf_len = 0 ∨ buf_addr + buf_len > len then .error .memoryAccess
    else .ok ()
  else if syscall_num = 48 ∨ syscall_num = 97 ∨ syscall_num = 104 ∨ syscall_num = 106 ∨ syscall_num = 6 then
    .ok ()
  else .error .invalidSyscall

/-- Copy bytes returned by the kernel into the tape starting at `base`
(`self.cells[args[1] + i] = byte as u32`). -/
def writeBytes : (Nat → Nat) → Nat → List Nat → (Nat → Nat)
  | cells, _, [] => cells
  | cells, base, b :: rest => writeBytes (setCell cells base (b % 256)) (base + 1) rest

/-- The marshalled buffer `&self.cells[a .. a + len]`, each cell taken as u8. -/
def marshalBuf (cells : Nat → Nat) (a : Nat) (len : Nat) : List Nat :=
  (List.range len).map (fun i => cells (a + i) % 256)

/-- The dispatch block of the gateway (`match syscall_num { ... }` in
`execute_bfa`): performs the host call and the per-branch cell stores,
returning the raw result together with the updated tape. -/
def gatewayDispatch (host : Nat → List Nat → List Nat → HostReply) (cells : Nat → Nat)
    (syscall_num a0 a1 a2 : Nat) : Except BFError (Nat × (Nat → Nat)) :=
  if syscall_num = 4 then
    match host 4 [a0, a2] (marshalBuf cells a1 a2) with
    | .error _ => .error .syscallFailed
    | .ok (n, _) => .ok (n, setCell cells 7 (n % U32MOD))
  else if syscall_num = 97 then
    match host 97 [a0, a1, a2] [] with
    | .error _ => .error .syscallFailed
    | .ok (fd, _) => .ok (fd, setCell (setCell cells 0 (fd % U32MOD)) 7 0)
  else if syscall_num = 104 then
    match host 104 [cells 0, a2] (marshalBuf cells a1 a2) with
    | .error _ => .error .syscallFailed
    | .ok (n, _) => .ok (n, setCell cells 7 (n % U32MOD))
  else if syscall_num = 106 then
    match host 106 [cells 0, a1] [] with
    | .error _ => .error .syscallFailed
    | .ok (n, _) => .ok (n, setCell cells 7 (n % U32MOD))
  else if syscall_num = 5 then
    match host 5 [cells 0, a2] (marshalBuf cells a1 a2) with
    | .error _ => .error .syscallFailed
    | .ok (cfd, _) => .ok (cfd, setCell (setCell cells 0 (cfd % U32MOD)) 7 0)
  else if syscall_num = 3 then
    match host 3 [a0, a2] [] with
    | .error _ => .error .syscallFailed
    | .ok (n, bytes) =>
      .ok (n, setCell (setCell (writeBytes cells a1 ((List.range n).map (fun i => bytes.getD i 0)))
        0 (n % U32MOD)) 7 0)
  else if syscall_num = 48 then
    match host 48 [cells a0, cells a2] [] with
    | .error _ => .error .syscallFailed
    | .ok (cfd, extra) =>
      .ok (cfd, setCell (setCell (setCell cells 0 (cfd % U32MOD)) 7 0)
        a2 (extra.getD 0 (cells a2) % U32MOD))
  else if syscall_num = 6 then
    match host 6 [a0] [] with
    | .error _ => .error .syscallFailed
    | .ok (n, _) => .ok (n, cells)
  else .error .invalidSyscall

/-- `BF::execute_bfa`: one extended-mode step.  On `.` the syscall gateway
runs: the syscall number is read from cell 7, arguments from cells 1-6; a
test-mode build rejects numbers whose low byte is in `2..=6`; after
validation the call is dispatched, and on success the raw result is stored
into cell 7 (`self.cells[7] = result as u32`, the code's final store).
stdout flushing is modelled as always succeeding. -/
def executeBFA (testMode : Bool) (st : BF) : Except BFError Unit × BF :=
  match st.code.getD st.pc ' ' with
  | '.' =>
    let syscall_num := st.cells 7
    let args : List Nat := [st.cells 1, st.cells 2, st.cells 3, st.cells 4, st.cells 5, st.cells 6]
    if testMode = true ∧ 2 ≤ syscall_num % 256 ∧ syscall_num % 256 ≤ 6 then
      (.error .invalidSyscall, st)
    else
      match validate_syscall CELLS_LEN syscall_num args with
      | .error e => (.error e, st)
      | .ok _ =>
        match gatewayDispatch st.host st.cells syscall_num
            (args.getD 0 0) (args.getD 1 0) (args.getD 2 0) with
        | .error e => (.error e, st)
        | .ok (result, cells2) =>
          (.ok (), { st with cells := setCell cells2 7 (result % U32MOD) })
  | '>' => executeBF st
  | '<' => executeBF st
  | '+' => executeBF st
  | '-' => executeBF st
  | '[' => executeBF st
  | ']' => executeBF st
  | _ => (.ok (), st)

/-- One iteration of the `run` loop: dispatch on the mode. -/
def execStep (testMode : Bool) (st : BF) : Except BFError Unit × BF :=
  match st.mode with
  | .BFA => executeBFA testMode st
  | .BF => executeBF st

/-- The `while self.pc < self.code.len()` loop of `BF::run`, with fuel.
`none` means the fuel ran out before the program finished. -/
def runLoop (testMode : Bool) : Nat → BF → Option (Except BFError Unit × BF)
  | 0, st => if st.pc < st.code.length then none else some (.ok (), st)
  | fuel + 1, st =>
    if st.pc < st.code.length then
      match execStep testMode st with
      | (.error e, st1) => some (.error e, st1)
      | (.ok _, st1) => runLoop testMode fuel { st1 with pc := (st1.pc + 1) % USIZEMOD }
    else some (.ok (), st)

/-- `BF::run`: validate brackets first, then execute. -/
def run (testMode : Bool) (fuel : Nat) (st : BF) : Option (Except BFError Unit × BF) :=
  if bracketScan st.code 0 = true then runLoop testMode fuel st
  else some (.error .bracketMismatch, st)

/-- A concrete kernel oracle that fails every call (used for concrete runs
that never reach the gateway). -/
def host0 : Nat → List Nat → List Nat → HostReply := fun _ _ _ => .error ()

/-!
## Evaluation-friendly form of the base-mode interpreter

`stepFlat`/`runFlat` are the same functions as `executeBF`/`runLoop` with the
state passed as separate arguments and the (immutable) program text as a fixed
parameter; `executeBF_flat` and `runLoop_flat` prove the correspondence.  The
flat form exists because concrete executions reduce efficiently on it.
-/

/-- Flat result: (result, cells, ptr, pc, output, input, printed). -/
def FlatState : Type :=
  (Nat → Nat) × Nat × Nat × List Nat × List Nat × List Nat

def stepFlat (code : List Char) (cells : Nat → Nat) (ptr pc : Nat)
    (output input printed : List Nat) : Except BFError Unit × FlatState :=
  match code.getD pc ' ' with
  | '>' =>
    if ptr + 1 ≥ CELLS_LEN then (.error .memoryAccess, cells, ptr + 1, pc, output, input, printed)
    else (.ok (), cells, ptr + 1, pc, output, input, printed)
  | '<' =>
    if ptr = 0 then (.error .memoryAccess, cells, ptr, pc, output, input, printed)
    else (.ok (), cells, ptr - 1, pc, output, input, printed)
  | '+' =>
    (.ok (), setCell cells ptr ((cells ptr + 1) % U32MOD), ptr, pc, output, input, printed)
  | '-' =>
    (.ok (), setCell cells ptr ((cells ptr + (U32MOD - 1)) % U32MOD), ptr, pc, output, input, printed)
  | '.' =>
    (.ok (), cells, ptr, pc, output ++ [cells ptr % 256], input, printed ++ [cells ptr % 256])
  | ',' =>
    match input with
    | [] => (.error .syscallFailed, cells, ptr, pc, output, input, printed)
    | b :: rest => (.ok (), setCell cells ptr (b % 256), ptr, pc, output, rest, printed)
  | '[' =>
    if cells ptr = 0 then
      match scanForward code (code.length + 1) pc 1 with
      | none => (.error .bracketMismatch, cells, ptr, pc, output, input, printed)
      | some pos => (.ok (), cells, ptr, pos, output, input, printed)
    else (.ok (), cells, ptr, pc, output, input, printed)
  | ']' =>
    if cells ptr = 0 then (.ok (), cells, ptr, pc, output, input, printed)
    else
      match scanBackward code (code.length + 1) pc 1 with
      | none => (.error .bracketMismatch, cells, ptr, pc, output, input, printed)
      | some pos => (.ok (), cells, ptr, (pos + (USIZEMOD - 1)) % USIZEMOD, output, input, printed)
  | _ => (.ok (), cells, ptr, pc, output, input, printed)

def runFlat (code : List Char) :
    Nat → (Nat → Nat) → Nat → Nat → List Nat → List Nat → List Nat →
    Option (Except BFError Unit × FlatState)
  | 0, cells, ptr, pc, output, input, printed =>
    if pc < code.length then none else some (.ok (), cells, ptr, pc, output, input, printed)
  | fuel + 1, cells, ptr, pc, output, input, printed =>
    if pc < code.length then
      match stepFlat code cells ptr pc output input printed with
      | (.error e, s) => some (.error e, s)
      | (.ok _, cells1, ptr1, pc1, output1, input1, printed1) =>
        runFlat code fuel cells1 ptr1 ((pc1 + 1) % USIZEMOD) output1 input1 printed1
    else some (.ok (), cells, ptr, pc, output, input, printed)

/-- Reassemble a `BF` state from a flat result, keeping the immutable fields. -/
def packFlat (st : BF) (r : Except BFError Unit × FlatState) : Except BFError Unit × BF :=
  (r.1, { st with cells := r.2.1, ptr := r.2.2.1, pc := r.2.2.2.1,
                  output := r.2.2.2.2.1, input := r.2.2.2.2.2.1, printed := r.2.2.2.2.2.2 })

theorem executeBF_flat (st : BF) :
    executeBF st = packFlat st (stepFlat st.code st.cells st.ptr st.pc st.output st.input st.printed) := by
  unfold executeBF stepFlat packFlat
  split <;> first | rfl | (split <;> first | rfl | (split <;> rfl))

theorem runLoop_flat (tm : Bool) :
    ∀ (fuel : Nat) (st : BF), st.mode = Mode.BF →
      runLoop tm fuel st =
        (runFlat st.code fuel st.cells st.ptr st.pc st.output st.input st.printed).map (packFlat st) := by
  intro fuel
  induction fuel with
  | zero =>
    intro st h
    unfold runLoop runFlat
    split
    · rfl
    · rfl
  | succ n ih =>
    intro st h
    have hexec : execStep tm st = executeBF st := by
      unfold execStep
      rw [h]
    unfold runLoop runFlat
    split
    · rw [hexec, executeBF_flat st]
      rcases hr : stepFlat st.code st.cells st.ptr st.pc st.output st.input st.printed with
        ⟨res, cells1, ptr1, pc1, output1, input1, printed1⟩
      cases res with
      | error e => rfl
      | ok u =>
        have := ih { st with cells := cells1, ptr := ptr1, pc := (pc1 + 1) % USIZEMOD,
                             output := output1, input := input1, printed := printed1 } h
        exact this
    · rfl

/-!
## The SIL compiler (`src/bfl.rs`)

`BFLNode` is the SIL tree; `BFLCompiler` the compiler state.  The `HashMap`
of variable locations is modelled as an association list named `vars` (the
source field is `variables`, a reserved word here); insertions happen only
for absent keys, so lookup semantics agree.  `println!` debugging output is
ignored.  `i32 → usize` casts are modelled by `usizeOfInt` (two's complement,
modulo `2 ^ 64`).
-/

inductive BFLNode where
  | Assign (name : String) (expr : BFLNode)
  | Variable (name : String)
  | Str (s : String)
  | Number (n : Int)
  | Bytes (bs : List Nat)
  | Add (l : BFLNode) (r : BFLNode)
  | Sub (l : BFLNode) (r : BFLNode)
  | If (cond : BFLNode) (body : List BFLNode)
  | While (cond : BFLNode) (body : List BFLNode)
  | Syscall (num : BFLNode) (args : List BFLNode)
  | Block (stmts : List BFLNode)

inductive CompileErr where
  | varNotFound
deriving DecidableEq

structure BFLCompiler where
  vars : List (String × Nat)
  next_var_location : Nat
  output : List Char
deriving DecidableEq

/-- `BFLCompiler::new`: empty table, next location 8, empty output. -/
def BFLCompiler.new : BFLCompiler :=
  { vars := [], next_var_location := 8, output := [] }

/-- The `i32 as usize` / `usize as i32 as usize` cast (two's complement). -/
def usizeOfInt (n : Int) : Nat := (n % (18446744073709551616 : Int)).toNat

/-- `BFLCompiler::allocate_variable`. -/
def allocate_variable (c : BFLCompiler) (name : String) : Nat × BFLCompiler :=
  match List.lookup name c.vars with
  | some location => (location, c)
  | none =>
    (c.next_var_location,
     { c with vars := (name, c.next_var_location) :: c.vars,
              next_var_location := c.next_var_location + 1 })

/-- `BFLCompiler::get_variable_location`. -/
def get_variable_location (c : BFLCompiler) (name : String) : Option Nat :=
  List.lookup name c.vars

/-- `BFLCompiler::current_position`: count `>` and `<` in the output. -/
def current_position (c : BFLCompiler) : Nat :=
  usizeOfInt (c.output.foldl
    (fun pos ch => if ch = '>' then pos + 1 else if ch = '<' then pos - 1 else pos) (0 : Int))

def pushStr (c : BFLCompiler) (s : String) : BFLCompiler :=
  { c with output := c.output ++ s.toList }

def pushRun (c : BFLCompiler) (ch : Char) (k : Nat) : BFLCompiler :=
  { c with output := c.output ++ List.replicate k ch }

def pushChar (c : BFLCompiler) (ch : Char) : BFLCompiler :=
  { c with output := c.output ++ [ch] }

def popChar (c : BFLCompiler) : BFLCompiler :=
  { c with output := c.output.dropLast }

/-- `BFLCompiler::move_to`. -/
def move_to (c : BFLCompiler) (location : Nat) : BFLCompiler :=
  let diff : Int := (location : Int) - (current_position c : Int)
  if 0 < diff then pushRun c '>' diff.toNat
  else if diff < 0 then pushRun c '<' (-diff).toNat
  else c

/-- The `for c in s.chars()` store loop of the `String` cases: per character
clear, add the ASCII value, move right; afterwards drop the trailing `>`. -/
def pushStringData (c : BFLCompiler) (s : String) : BFLCompiler :=
  let c1 := s.toList.foldl
    (fun acc ch => pushChar (pushRun (pushStr acc ("[-]")) '+' (ch.toNat % 256)) '>') c
  if s.toList.isEmpty then c1 else popChar c1

/-- The byte store loop of the `Bytes` cases. -/
def pushBytesData (c : BFLCompiler) (bs : List Nat) : BFLCompiler :=
  let c1 := bs.foldl
    (fun acc b => pushChar (pushRun (pushStr acc ("[-]")) '+' (b % 256)) '>') c
  if bs.isEmpty then c1 else popChar c1

/-- The `for i in 1..8 { move_to(i); "[-]" }` prologue of `Syscall`. -/
def clearSyscallArea (c : BFLCompiler) : BFLCompiler :=
  (List.range' 1 7).foldl (fun acc i => pushStr (move_to acc i) ("[-]")) c

mutual

/-- `BFLCompiler::compile`.  Sub-matches of the source (on the assigned
expression, on the operand shapes of `Add`/`Sub`, on the syscall number)
appear here as refined top-level patterns; first-match semantics agrees. -/
def compileNode (c : BFLCompiler) (node : BFLNode) : Except CompileErr BFLCompiler :=
  match node with
  | .Number n => .ok (pushRun (pushStr c ("[-]")) '+' (usizeOfInt n))
  | .Str s => .ok (pushStringData c s)
  | .Bytes bs => .ok (pushBytesData c bs)
  | .Variable name =>
    let r := allocate_variable c name
    .ok (move_to r.2 r.1)
  | .Assign name (.Str s) =>
    let r := allocate_variable c name
    let str_start := r.1 + 1
    let c2 := pushRun (pushStr (move_to r.2 r.1) ("[-]")) '+' str_start
    let c3 := pushStringData (move_to c2 str_start) s
    .ok { c3 with next_var_location := str_start + s.utf8ByteSize + 1 }
  | .Assign name (.Bytes bs) =>
    let r := allocate_variable c name
    let bytes_start := r.1 + 1
    let c2 := pushRun (pushStr (move_to r.2 r.1) ("[-]")) '+' bytes_start
    let c3 := pushBytesData (move_to c2 bytes_start) bs
    .ok { c3 with next_var_location := bytes_start + bs.length + 1 }
  | .Assign name (.Block statements) =>
    let r := allocate_variable c name
    let data_start := r.1 + 1
    let c2 := pushRun (pushStr (move_to r.2 r.1) ("[-]")) '+' data_start
    match compileAssignBlockStmts c2 data_start 0 statements with
    | .error e => .error e
    | .ok c3 => .ok { c3 with next_var_location := data_start + statements.length + 1 }
  | .Assign name expr =>
    let r := allocate_variable c name
    compileNode (pushStr (move_to r.2 r.1) ("[-]")) expr
  | .Add (.Variable name) (.Number offset) =>
    let a := allocate_variable c name
    let c2 := pushStr (move_to a.2 a.1) ("[->+>+<<]>>[-<<+>>]<<")
    .ok (pushStr (pushRun c2 '+' (usizeOfInt offset)) ("[>+<-]>"))
  | .Add l r =>
    match compileNode c l with
    | .error e => .error e
    | .ok c1 => compileNode (pushStr c1 ("[->+>+<<]>>[-<<+>>]<<")) r
  | .Sub (.Variable name) r =>
    let a := allocate_variable c name
    let c2 := pushStr (move_to a.2 a.1) ("[->+>+<<]>>[-<<+>>]<<[>+<-]>")
    match compileNode c2 r with
    | .error e => .error e
    | .ok c3 => .ok (pushStr c3 ("[-<->]<"))
  | .Sub l r =>
    match compileNode c l with
    | .error e => .error e
    | .ok c1 =>
      match compileNode (pushStr c1 ("[->+>+<<]>>[-<<+>>]<<")) r with
      | .error e => .error e
      | .ok c2 => .ok (pushStr c2 ("[-<->]<"))
  | .If cond body =>
    match compileNode c cond with
    | .error e => .error e
    | .ok c1 =>
      match compileSeq (pushChar c1 '[') body with
      | .error e => .error e
      | .ok c2 => .ok (pushChar c2 ']')
  | .While cond body =>
    let start_pos := current_position c
    match compileNode c cond with
    | .error e => .error e
    | .ok c1 =>
      match compileSeq (pushChar c1 '[') body with
      | .error e => .error e
      | .ok c2 => .ok (pushChar (move_to c2 start_pos) ']')
  | .Syscall (.Number n) args =>
    let start_pos := current_position c
    let c1 := clearSyscallArea c
    let c2 := if 0 < n then pushRun (move_to c1 7) '+' (usizeOfInt n) else move_to c1 7
    match compileSyscallArgs c2 1 args with
    | .error e => .error e
    | .ok c3 => .ok (move_to (pushChar (move_to c3 7) '.') start_pos)
  | .Syscall number args =>
    let start_pos := current_position c
    let c1 := clearSyscallArea c
    match compileNode (move_to c1 7) number with
    | .error e => .error e
    | .ok c2 =>
      match compileSyscallArgs c2 1 args with
      | .error e => .error e
      | .ok c3 => .ok (move_to (pushChar (move_to c3 7) '.') start_pos)
  | .Block stmts => compileSeq c stmts

/-- Sequential compilation of statement lists (`If`/`While` bodies, `Block`). -/
def compileSeq (c : BFLCompiler) (stmts : List BFLNode) : Except CompileErr BFLCompiler :=
  match stmts with
  | [] => .ok c
  | stmt :: rest =>
    match compileNode c stmt with
    | .error e => .error e
    | .ok c1 => compileSeq c1 rest

/-- The `for arg in args.iter()` loop of the `Syscall` case, threading the
target cell `pos` (`current_pos` in the source, starting at 1). -/
def compileSyscallArgs (c : BFLCompiler) (pos : Nat) (args : List BFLNode) :
    Except CompileErr BFLCompiler :=
  match args with
  | [] => .ok c
  | .Number 0 :: rest => compileSyscallArgs c (pos + 1) rest
  | .Block statements :: rest =>
    match compileSyscallBlockStmts c pos statements with
    | .error e => .error e
    | .ok r => compileSyscallArgs r.1 r.2 rest
  | .Variable name :: rest =>
    match List.lookup name c.vars with
    | none => .error .varNotFound
    | some var_loc =>
      let c1 := pushStr (move_to c pos) ("[-]")
      let c2 := pushStr (move_to c1 var_loc) ("[->+>+<<]>>[-<<+>>]<<")
      let c3 := pushStr c2 ("[>+<-]>")
      let c4 := pushStr c3 ("[->+>+<<]>>[-<<+>>]<<")
      let c5 := pushStr c4 ("[-<+>]<")
      compileSyscallArgs c5 (pos + 1) rest
  | .Number n :: rest =>
    let c1 := pushStr (move_to c pos) ("[-]")
    let c2 := if 0 < n then pushRun c1 '+' (usizeOfInt n) else c1
    compileSyscallArgs c2 (pos + 1) rest
  | arg :: rest =>
    match compileNode (pushStr (move_to c pos) ("[-]")) arg with
    | .error e => .error e
    | .ok c1 => compileSyscallArgs c1 (pos + 1) rest

/-- The statement loop of a `Block` used as a syscall argument (one cell per
statement, `current_pos` advancing). -/
def compileSyscallBlockStmts (c : BFLCompiler) (pos : Nat) (stmts : List BFLNode) :
    Except CompileErr (BFLCompiler × Nat) :=
  match stmts with
  | [] => .ok (c, pos)
  | .Number n :: rest =>
    let c1 := pushStr (move_to c pos) ("[-]")
    let c2 := if 0 < n then pushRun c1 '+' (usizeOfInt n) else c1
    compileSyscallBlockStmts c2 (pos + 1) rest
  | stmt :: rest =>
    let c1 := pushStr (move_to c pos) ("[-]")
    match compileNode c1 stmt with
    | .error e => .error e
    | .ok c2 => compileSyscallBlockStmts c2 (pos + 1) rest

/-- The `(offset, stmt)` loop of `Assign` with a `Block` expression. -/
def compileAssignBlockStmts (c : BFLCompiler) (data_start : Nat) (offset : Nat)
    (stmts : List BFLNode) : Except CompileErr BFLCompiler :=
  match stmts with
  | [] => .ok c
  | .Number n :: rest =>
    let c1 := pushStr (move_to c (data_start + offset)) ("[-]")
    let c2 := if 0 < n then pushRun c1 '+' (usizeOfInt n) else c1
    compileAssignBlockStmts c2 data_start (offset + 1) rest
  | stmt :: rest =>
    let c1 := pushStr (move_to c (data_start + offset)) ("[-]")
    match compileNode c1 stmt with
    | .error e => .error e
    | .ok c2 => compileAssignBlockStmts c2 data_start (offset + 1) rest

end

/-!
## Bracket-depth lemmas

`D code j` is the bracket depth after scanning the length-`j` prefix.  A
program accepted by the pre-scan has non-negative depth everywhere and zero
final depth; on such programs both matching loops always succeed.
-/

theorem getD_of_le {α : Type} (d : α) : ∀ (l : List α) (n : Nat), l.length ≤ n → l.getD n d = d := by
  intro l
  induction l with
  | nil => intro n _; cases n <;> rfl
  | cons x xs ih =>
    intro n hn
    cases n with
    | zero => simp at hn
    | succ m =>
      simp only [List.length_cons, Nat.succ_le_succ_iff] at hn
      simpa using ih m hn

theorem D_zero (code : List Char) : D code 0 = 0 := by
  cases code <;> rfl

theorem D_step : ∀ (code : List Char) (j : Nat), j < code.length →
    D code (j + 1) = D code j + delta (code.getD j ' ') := by
  intro code
  induction code with
  | nil => intro j hj; simp at hj
  | cons c rest ih =>
    intro j hj
    cases j with
    | zero =>
      simp only [D, D_zero]
      simp [List.getD]
    | succ m =>
      simp only [List.length_cons, Nat.succ_lt_succ_iff] at hj
      simp only [D, List.getD_cons_succ]
      rw [ih m hj]
      ring

theorem D_past : ∀ (code : List Char) (j : Nat), code.length ≤ j → D code j = D code code.length := by
  intro code
  induction code with
  | nil => intro j _; simp [D]
  | cons c rest ih =>
    intro j hj
    cases j with
    | zero => simp at hj
    | succ m =>
      simp only [List.length_cons, Nat.succ_le_succ_iff] at hj
      simp only [D, List.length_cons]
      rw [ih m hj]

theorem bracketScan_spec : ∀ (code : List Char) (d : Int), bracketScan code d = true → 0 ≤ d →
    (∀ j, 0 ≤ d + D code j) ∧ d + D code code.length = 0 := by
  intro code
  induction code with
  | nil =>
    intro d h hd
    simp only [bracketScan, decide_eq_true_eq] at h
    constructor
    · intro j; simp [D]; omega
    · simp [D]; omega
  | cons c rest ih =>
    intro d h hd
    simp only [bracketScan] at h
    by_cases hc1 : c = '['
    · rw [if_pos hc1] at h
      obtain ⟨h1, h2⟩ := ih (d + 1) h (by omega)
      subst hc1
      have hdelta : delta '[' = 1 := by decide
      constructor
      · intro j
        cases j with
        | zero => simpa [D_zero] using hd
        | succ m =>
          have := h1 m
          simp only [D, hdelta]
          omega
      · simp only [List.length_cons, D, hdelta]
        omega
    · rw [if_neg hc1] at h
      by_cases hc2 : c = ']'
      · rw [if_pos hc2] at h
        have hd1 : ¬ (d - 1 < 0) := by
          by_contra hneg
          rw [if_pos (by omega)] at h
          exact Bool.false_ne_true h
        rw [if_neg hd1] at h
        obtain ⟨h1, h2⟩ := ih (d - 1) h (by omega)
        subst hc2
        have hdelta : delta ']' = -1 := by decide
        constructor
        · intro j
          cases j with
          | zero => simpa [D_zero] using hd
          | succ m =>
            have := h1 m
            simp only [D, hdelta]
            omega
        · simp only [List.length_cons, D, hdelta]
          omega
      · rw [if_neg hc2] at h
        obtain ⟨h1, h2⟩ := ih d h hd
        have hdelta : delta c = 0 := by simp [delta, hc1, hc2]
        constructor
        · intro j
          cases j with
          | zero => simpa [D_zero] using hd
          | succ m =>
            have := h1 m
            simp only [D, hdelta]
            omega
        · simp only [List.length_cons, D, hdelta]
          omega

theorem scanForward_isSome (code : List Char) (hfin : D code code.length = 0) :
    ∀ (fuel : Nat) (pos : Nat) (depth : Int), 0 < depth → depth ≤ D code (pos + 1) →
      code.length ≤ pos + fuel + 1 → (scanForward code fuel pos depth).isSome = true := by
  intro fuel
  induction fuel with
  | zero =>
    intro pos depth hpos hle hlen
    exfalso
    have : D code (pos + 1) = 0 := by
      rw [D_past code (pos + 1) (by omega), hfin]
    omega
  | succ n ih =>
    intro pos depth hpos hle hlen
    rw [scanForward]
    rw [if_neg (by omega)]
    by_cases hb : pos + 1 < code.length
    · rw [if_pos hb]
      set depth2 := depth + delta (code.getD (pos + 1) ' ') with hdepth2
      by_cases hz : depth2 ≤ 0
      · cases n with
        | zero => rw [scanForward, if_pos hz]; rfl
        | succ m => rw [scanForward, if_pos hz]; rfl
      · apply ih (pos + 1) depth2 (by omega)
        · have hstep := D_step code (pos + 1) hb
          omega
        · omega
    · exfalso
      have : D code (pos + 1) = 0 := by
        rw [D_past code (pos + 1) (by omega), hfin]
      omega

theorem scanBackward_isSome (code : List Char) :
    ∀ (fuel : Nat) (pos : Nat) (depth : Int), 0 < depth → depth ≤ D code pos →
      pos ≤ fuel → (scanBackward code fuel pos depth).isSome = true := by
  intro fuel
  induction fuel with
  | zero =>
    intro pos depth hpos hle hlen
    exfalso
    have hp : pos = 0 := by omega
    rw [hp, D_zero] at hle
    omega
  | succ n ih =>
    intro pos depth hpos hle hlen
    rw [scanBackward]
    rw [if_neg (by omega)]
    have hp : ¬ pos = 0 := by
      intro hp
      rw [hp, D_zero] at hle
      omega
    rw [if_neg hp]
    set depth2 := depth - delta (code.getD (pos - 1) ' ') with hdepth2
    by_cases hz : depth2 ≤ 0
    · cases n with
      | zero => rw [scanBackward, if_pos hz]; rfl
      | succ m => rw [scanBackward, if_pos hz]; rfl
    · apply ih (pos - 1) depth2 (by omega)
      · by_cases hb : pos - 1 < code.length
        · have hstep := D_step code (pos - 1) hb
          have hpos1 : pos - 1 + 1 = pos := by omega
          rw [hpos1] at hstep
          omega
        · have h1 : D code pos = D code code.length := D_past code pos (by omega)
          have h2 : D code (pos - 1) = D code code.length := D_past code (pos - 1) (by omega)
          have h3 : code.getD (pos - 1) ' ' = ' ' := getD_of_le ' ' code (pos - 1) (by omega)
          have h4 : delta ' ' = 0 := by decide
          rw [h3, h4] at hdepth2
          omega
      · omega

/-!
## Claim C9 machinery: validated programs never trip the bracket handlers
-/

theorem validate_syscall_ne_bm (len n : Nat) (args : List Nat) :
    validate_syscall len n args ≠ .error .bracketMismatch := by
  unfold validate_syscall
  split
  · dsimp only
    split <;> simp
  · split
    · dsimp only
      split <;> simp
    · split <;> simp

theorem gatewayDispatch_ne_bm (host : Nat → List Nat → List Nat → HostReply)
    (cells : Nat → Nat) (n a0 a1 a2 : Nat) :
    gatewayDispatch host cells n a0 a1 a2 ≠ .error .bracketMismatch := by
  unfold gatewayDispatch
  split
  · split <;> simp
  · split
    · split <;> simp
    · split
      · split <;> simp
      · split
        · split <;> simp
        · split
          · split <;> simp
          · split
            · split <;> simp
            · split
              · split <;> simp
              · split
                · split <;> simp
                · simp

theorem executeBF_no_mismatch (st : BF) (h : bracketScan st.code 0 = true) :
    (executeBF st).1 ≠ .error .bracketMismatch := by
  obtain ⟨hnn, hfin⟩ := bracketScan_spec st.code 0 h le_rfl
  simp only [zero_add] at hnn hfin
  unfold executeBF
  split
  · split <;> simp
  · split <;> simp
  · simp
  · simp
  · simp
  · split <;> simp
  · rename_i heq
    split
    · have hpc : st.pc < st.code.length := by
        by_contra hge
        rw [getD_of_le ' ' st.code st.pc (by omega)] at heq
        exact absurd heq (by decide)
      have hdelta : delta '[' = 1 := by decide
      have hD : D st.code (st.pc + 1) = D st.code st.pc + 1 := by
        rw [D_step st.code st.pc hpc, heq, hdelta]
      have hsome := scanForward_isSome st.code hfin (st.code.length + 1) st.pc 1
        (by norm_num) (by have := hnn st.pc; omega) (by omega)
      cases hscan : scanForward st.code (st.code.length + 1) st.pc 1 with
      | none => rw [hscan] at hsome; simp at hsome
      | some pos => simp
    · simp
  · rename_i heq
    split
    · simp
    · have hpc : st.pc < st.code.length := by
        by_contra hge
        rw [getD_of_le ' ' st.code st.pc (by omega)] at heq
        exact absurd heq (by decide)
      have hdelta : delta ']' = -1 := by decide
      have hD : D st.code (st.pc + 1) = D st.code st.pc + -1 := by
        rw [D_step st.code st.pc hpc, heq, hdelta]
      have hsome := scanBackward_isSome st.code (st.code.length + 1) st.pc 1
        (by norm_num) (by have := hnn (st.pc + 1); omega) (by omega)
      cases hscan : scanBackward st.code (st.code.length + 1) st.pc 1 with
      | none => rw [hscan] at hsome; simp at hsome
      | some pos => simp
  · simp

theorem executeBFA_no_mismatch (tm : Bool) (st : BF) (h : bracketScan st.code 0 = true) :
    (executeBFA tm st).1 ≠ .error .bracketMismatch := by
  unfold executeBFA
  split
  · dsimp only
    split
    · simp
    · split
      · rename_i e heq
        have := validate_syscall_ne_bm CELLS_LEN (st.cells 7)
          [st.cells 1, st.cells 2, st.cells 3, st.cells 4, st.cells 5, st.cells 6]
        rw [heq] at this
        simp only []
        intro hcontra
        apply this
        injection hcontra with h1
        rw [h1]
      · split
        · rename_i e heq
          simp only [List.getD_cons_zero, List.getD_cons_succ] at heq
          have := gatewayDispatch_ne_bm st.host st.cells (st.cells 7)
            (st.cells 1) (st.cells 2) (st.cells 3)
          rw [heq] at this
          simp only []
          intro hcontra
          apply this
          injection hcontra with h1
          rw [h1]
        · simp
  all_goals first
    | exact executeBF_no_mismatch st h
    | simp

theorem execStep_no_mismatch (tm : Bool) (st : BF) (h : bracketScan st.code 0 = true) :
    (execStep tm st).1 ≠ .error .bracketMismatch := by
  unfold execStep
  cases st.mode
  · exact executeBF_no_mismatch st h
  · exact executeBFA_no_mismatch tm st h

theorem executeBF_code (st : BF) : ((executeBF st).2).code = st.code := by
  rw [executeBF_flat st]
  rfl

theorem executeBFA_code (tm : Bool) (st : BF) : ((executeBFA tm st).2).code = st.code := by
  unfold executeBFA
  split
  · dsimp only
    split
    · rfl
    · split
      · rfl
      · split <;> rfl
  all_goals first | exact executeBF_code st | rfl

theorem execStep_code (tm : Bool) (st : BF) : ((execStep tm st).2).code = st.code := by
  unfold execStep
  cases st.mode
  · exact executeBF_code st
  · exact executeBFA_code tm st

theorem runLoop_no_mismatch (tm : Bool) : ∀ (fuel : Nat) (st : BF),
    bracketScan st.code 0 = true → ∀ (res : Except BFError Unit) (st2 : BF),
    runLoop tm fuel st = some (res, st2) → res ≠ .error .bracketMismatch := by
  intro fuel
  induction fuel with
  | zero =>
    intro st h res st2 hr
    unfold runLoop at hr
    split at hr
    · exact absurd hr (by simp)
    · rw [Option.some_inj, Prod.mk.injEq] at hr
      rw [← hr.1]
      simp
  | succ n ih =>
    intro st h res st2 hr
    unfold runLoop at hr
    split at hr
    · rcases hstep : execStep tm st with ⟨r, st1⟩
      rw [hstep] at hr
      cases r with
      | error e =>
        rw [Option.some_inj, Prod.mk.injEq] at hr
        rw [← hr.1]
        have hne := execStep_no_mismatch tm st h
        rw [hstep] at hne
        exact hne
      | ok u =>
        have hcode : st1.code = st.code := by
          have := execStep_code tm st
          rw [hstep] at this
          exact this
        exact ih { st1 with pc := (st1.pc + 1) % USIZEMOD }
          (by rw [show ({ st1 with pc := (st1.pc + 1) % USIZEMOD } : BF).code = st1.code from rfl, hcode]; exact h)
          res st2 hr
    · rw [Option.some_inj, Prod.mk.injEq] at hr
      rw [← hr.1]
      simp

/-!
## Claim theorems
-/

/-- **C3** (confirmed): `run()` first scans the whole program tracking bracket
depth; if the depth ever goes negative or the final depth is nonzero, `run`
returns `BracketMismatch` and the state is returned unchanged — no cell is
written, the tape pointer is unmoved, and nothing is written to any host
stream (the result pairs the error with the untouched input state). -/
theorem c3_prescan_rejects_without_side_effects (st : BF) (tm : Bool) (fuel : Nat)
    (h : (∃ j, D st.code j < 0) ∨ D st.code st.code.length ≠ 0) :
    run tm fuel st = some (.error .bracketMismatch, st) := by
  have hscan : bracketScan st.code 0 = false := by
    by_contra hb
    rw [Bool.not_eq_false] at hb
    obtain ⟨h1, h2⟩ := bracketScan_spec st.code 0 hb le_rfl
    simp only [zero_add] at h1 h2
    rcases h with ⟨j, hj⟩ | hne
    · exact absurd (h1 j) (by omega)
    · exact hne h2
  unfold run
  rw [hscan]
  simp

theorem c3_witness :
    D (('[') :: []) (List.length (('[') :: [])) ≠ 0 ∧
    run false 5 (BF.new (('[') :: []) Mode.BF host0 []) =
      some (.error .bracketMismatch, BF.new (('[') :: []) Mode.BF host0 []) :=
  ⟨by decide,
   c3_prescan_rejects_without_side_effects (BF.new (('[') :: []) Mode.BF host0 []) false 5
     (Or.inr (by decide))⟩

/-- **C9** (confirmed): if the pre-execution bracket scan accepts a program,
the `[` and `]` handlers never reach their unmatched-bracket error branches
during execution, so a run that passes pre-validation never returns
`BracketMismatch` (for any fuel, mode and state). -/
theorem c9_validated_run_never_bracket_mismatch (st : BF) (tm : Bool) (fuel : Nat)
    (h : bracketScan st.code 0 = true) (res : Except BFError Unit) (st2 : BF)
    (hr : run tm fuel st = some (res, st2)) : res ≠ .error .bracketMismatch := by
  unfold run at hr
  rw [if_pos h] at hr
  exact runLoop_no_mismatch tm fuel st h res st2 hr

theorem c9_witness :
    bracketScan (('[') :: (']') :: []) 0 = true ∧
    ((.ok () : Except BFError Unit) ≠ .error .bracketMismatch) :=
  ⟨by decide,
   c9_validated_run_never_bracket_mismatch
     (BF.new (('[') :: (']') :: []) Mode.BF host0 []) false 10 (by decide) (.ok ())
     { cells := fun _ => 0, ptr := 0, code := ('[') :: (']') :: [], pc := 2, output := [],
       mode := Mode.BF, input := [], printed := [], host := host0 }
     (by rfl)⟩

/-- **C10** (confirmed): `dump_cells(n)` is total for every `n`: it returns
exactly the first `min n CELLS_LEN` cells of the tape and never indexes out
of bounds, even when `n` exceeds the tape length. -/
theorem c10_dump_cells_total (st : BF) (n : Nat) (i : Nat)
    (hi : i < min n CELLS_LEN) :
    (dump_cells st n).length = min n CELLS_LEN ∧
    (dump_cells st n).getD i 0 = st.cells i := by
  constructor
  · simp [dump_cells]
  · unfold dump_cells
    rw [List.getD_eq_getElem?_getD]
    rw [List.getElem?_map]
    rw [List.getElem?_range (by simpa using hi)]
    rfl

theorem c10_witness :
    1 < min 70000 CELLS_LEN ∧
    ((dump_cells (BF.new [] Mode.BF host0 []) 70000).length = min 70000 CELLS_LEN ∧
     (dump_cells (BF.new [] Mode.BF host0 []) 70000).getD 1 0 =
       (BF.new [] Mode.BF host0 []).cells 1) :=
  ⟨by decide, c10_dump_cells_total (BF.new [] Mode.BF host0 []) 70000 1 (by decide)⟩

/-- **C6** (counterexample): it is not true that every instruction other than
`.` has the same effect in extended mode as in base mode: on `,` with a byte
available on stdin, the base-mode step consumes it into the pointed cell while
the extended-mode step is a no-op (`,` is missing from the instruction
forwarding list of `execute_bfa`). -/
theorem c6_counterexample :
    executeBFA false (BF.new ((',') :: []) Mode.BFA host0 (65 :: [])) ≠
      executeBF (BF.new ((',') :: []) Mode.BFA host0 (65 :: [])) := by
  intro h
  exact absurd (congrArg (fun p => p.2.input) h) (by decide)

/-- **C6** (amended): for every instruction other than `.` and `,`, one
execution step in extended mode has exactly the same effect on the
interpreter state as the same step in base mode; `,` in extended mode is a
no-op instead of reading a byte from standard input. -/
theorem c6_amended_step_equivalence (tm : Bool) (st : BF)
    (h1 : st.code.getD st.pc ' ' ≠ '.') (h2 : st.code.getD st.pc ' ' ≠ ',') :
    executeBFA tm st = executeBF st := by
  unfold executeBFA
  split
  · exact absurd (by assumption) h1
  · rfl
  · rfl
  · rfl
  · rfl
  · rfl
  · rfl
  · unfold executeBF
    split <;> simp_all

theorem c6_amended_witness :
    ((('+') :: []).getD 0 ' ' ≠ '.') ∧ ((('+') :: []).getD 0 ' ' ≠ ',') ∧
    executeBFA false (BF.new (('+') :: []) Mode.BFA host0 []) =
      executeBF (BF.new (('+') :: []) Mode.BFA host0 []) :=
  ⟨by decide, by decide,
   c6_amended_step_equivalence false (BF.new (('+') :: []) Mode.BFA host0 [])
     (by decide) (by decide)⟩

/-- **C2** (code bug): in a test-mode build, `.` with the syscall-number cell
(cell 7) holding SOCKET (97 in this code's numbering) is NOT rejected by the
test-mode guard — the host kernel call is performed (here it returns fd 5,
which the gateway stores in cell 0) — while READ (3) IS rejected with
`InvalidSyscall` by the very guard whose message says it denies socket
operations.  The guard tests `syscall_num as u8 ∈ 2..=6`, which covers
READ=3, WRITE=4, ACCEPT=5, CLOSE=6 but not SOCKET=97, BIND=104, LISTEN=106. -/
theorem c2_test_mode_guard_is_wrong :
    ((executeBFA true
        { cells := setCell (fun _ => 0) 7 97, ptr := 0, code := ('.') :: [], pc := 0,
          output := [], mode := Mode.BFA, input := [], printed := [],
          host := fun _ _ _ => .ok (5, []) }).1 = .ok () ∧
     (executeBFA true
        { cells := setCell (fun _ => 0) 7 97, ptr := 0, code := ('.') :: [], pc := 0,
          output := [], mode := Mode.BFA, input := [], printed := [],
          host := fun _ _ _ => .ok (5, []) }).2.cells 0 = 5) ∧
    (executeBFA true
        { cells := setCell (fun _ => 0) 7 3, ptr := 0, code := ('.') :: [], pc := 0,
          output := [], mode := Mode.BFA, input := [], printed := [],
          host := host0 }).1 = .error .invalidSyscall :=
  ⟨⟨rfl, rfl⟩, rfl⟩

/-- A concrete gateway state: a WRITE syscall (number 4 in cell 7, fd 1 in
cell 1, buffer index 8 in cell 2, length 1 in cell 3) with a kernel that
returns 1. -/
def writeDemoState : BF :=
  { cells := setCell (setCell (setCell (setCell (fun _ => 0) 7 4) 1 1) 2 8) 3 1,
    ptr := 0, code := ('.') :: [], pc := 0, output := [], mode := Mode.BFA,
    input := [], printed := [], host := fun _ _ _ => Except.ok (1, []) }

/-- The state after the gateway dispatches `writeDemoState`. -/
def writeDemoAfter : BF :=
  { writeDemoState with cells := setCell (setCell writeDemoState.cells 7 1) 7 1 }

/-- **C1** (counterexample): a successfully dispatched WRITE syscall (number
4 in cell 7, fd 1, buffer index 8, length 1; the host returns 1) does NOT
write its return value into cell 0: cell 0 still holds 0 afterwards, while
the return value 1 lands in cell 7. -/
theorem c1_counterexample :
    (executeBFA false writeDemoState).1 = .ok () ∧
    (executeBFA false writeDemoState).2.cells 0 = 0 ∧
    (executeBFA false writeDemoState).2.cells 7 = 1 :=
  ⟨rfl, rfl, rfl⟩

/-- **C1** (amended): for every syscall dispatched by the gateway that
succeeds (with a kernel returning `retv`), the gateway writes the numeric
return value into cell 7 — the syscall-number cell — not into cell 0; cell 7
holds the syscall number at dispatch and cells 1-6 the arguments, and for the
WRITE/BIND/LISTEN/CLOSE branches cell 0 is left untouched (only the
SOCKET/ACCEPT/READ branches store an fd or byte count into cell 0). -/
theorem c1_amended_result_written_to_cell7 (st : BF) (tm : Bool) (retv : Nat)
    (aux : List Nat) (st2 : BF)
    (hhost : st.host = fun _ _ _ => Except.ok (retv, aux))
    (hc : st.code.getD st.pc ' ' = '.')
    (hok : executeBFA tm st = (.ok (), st2)) :
    st2.cells 7 = retv % U32MOD ∧
    ((st.cells 7 = 4 ∨ st.cells 7 = 104 ∨ st.cells 7 = 106 ∨ st.cells 7 = 6) →
      st2.cells 0 = st.cells 0) := by
  unfold executeBFA at hok
  split at hok
  case _ heq =>
    dsimp only at hok
    split at hok
    · exact absurd (Prod.mk.injEq .. ▸ hok).1 (by simp)
    · split at hok
      · exact absurd (Prod.mk.injEq .. ▸ hok).1 (by simp)
      · split at hok
        · exact absurd (Prod.mk.injEq .. ▸ hok).1 (by simp)
        · rename_i result cells2 heqd
          have hst2 : st2 = { st with cells := setCell cells2 7 (result % U32MOD) } :=
            ((Prod.mk.injEq .. ▸ hok).2).symm
          subst hst2
          unfold gatewayDispatch at heqd
          rw [hhost] at heqd
          dsimp only at heqd
          repeat' split at heqd
          all_goals
            first
            | (rw [Except.ok.injEq, Prod.mk.injEq] at heqd
               obtain ⟨hres, hcells⟩ := heqd
               subst hres
               subst hcells
               refine ⟨by simp [setCell], ?_⟩
               intro hdisj
               rcases hdisj with h | h | h | h <;>
                 first
                 | (exfalso; omega)
                 | simp [setCell, h])
            | (exact absurd heqd (by simp))
  all_goals
    exact absurd (by assumption) (by rw [hc] at *; exact fun hcc => by simp_all)

theorem c1_amended_witness :
    (writeDemoState.code.getD writeDemoState.pc ' ' = '.') ∧
    (writeDemoAfter.cells 7 = 1 % U32MOD ∧
     ((writeDemoState.cells 7 = 4 ∨ writeDemoState.cells 7 = 104 ∨
       writeDemoState.cells 7 = 106 ∨ writeDemoState.cells 7 = 6) →
       writeDemoAfter.cells 0 = writeDemoState.cells 0)) :=
  ⟨rfl, c1_amended_result_written_to_cell7 writeDemoState false 1 [] writeDemoAfter rfl rfl rfl⟩

/-- **C4** (code bug): compiling `Assign("v", Sub(Number 5, Number 3))` and
running the emitted program leaves the cell allocated for `v` (cell 8)
holding 0, not `max(5-3, 0) = 2`: the emitted subtraction idiom evaluates the
right operand into the very cell holding the left operand (clearing it with
`[-]` first) and then drains it as decrements into the cell one to the LEFT
of the target, so the saturating subtraction promised by the spec never
happens. -/
theorem c4_sub_lowering_is_broken :
    ∃ comp : BFLCompiler,
      compileNode BFLCompiler.new
        (BFLNode.Assign ("v") (BFLNode.Sub (BFLNode.Number 5) (BFLNode.Number 3))) = .ok comp ∧
      get_variable_location comp ("v") = some 8 ∧
      (run false 1000 (BF.new comp.output Mode.BF host0 [])).map
        (fun p => (p.1, p.2.cells 8)) = some (.ok (), 0) ∧
      (0 : Int) ≠ max ((5 : Int) - 3) 0 := by
  refine ⟨⟨(("v"), 8) :: [], 9,
    (">>>>>>>>[-][-]+++++[->+>+<<]>>[-<<+>>]<<[-]+++[-<->]<").toList⟩, rfl, rfl, ?_, by decide⟩
  unfold run
  rw [if_pos (by decide)]
  rw [runLoop_flat false 1000 _ rfl]
  rfl

/-- Modelled from the spec: the emission §4.3 prescribes for `If(cond, body)` —
condition code, `[`, body code, the moves back to the flag cell, a `[-]`
clearing the flag, then `]`. -/
def ifLoweringSpec (condCode : List Char) (bodyCode : List Char) (moveBack : List Char) :
    List Char :=
  condCode ++ ('[') :: [] ++ bodyCode ++ moveBack ++ ("[-]").toList ++ (']') :: []

/-- **C5** (counterexample): the code emitted for `If(Number 1, [])` is
`[-]+[]` — there is no move back to the flag cell and no `[-]` clearing it
before `]`, so the emission differs from the one the claim describes. -/
theorem c5_counterexample :
    (compileNode BFLCompiler.new (BFLNode.If (BFLNode.Number 1) [])).map
      (fun c => c.output) = .ok (("[-]+[]").toList) ∧
    ("[-]+[]").toList ≠ ifLoweringSpec (("[-]+").toList) [] [] :=
  ⟨rfl, by decide⟩

/-- The compiled `If(Number 1, [])` program and the tape after its first two
steps (cell 0 holds the flag value 1). -/
def ifDemoProg : List Char := ("[-]+[]").toList

def ifDemoCells : Nat → Nat := setCell (fun _ => 0) 0 1

theorem ifDemoCycle (f : Nat) :
    runFlat ifDemoProg (f + 2) ifDemoCells 0 4 [] [] [] =
    runFlat ifDemoProg f ifDemoCells 0 4 [] [] [] := rfl

theorem ifDemoPrefix (f : Nat) :
    runFlat ifDemoProg (f + 2) (fun _ => 0) 0 0 [] [] [] =
    runFlat ifDemoProg f ifDemoCells 0 4 [] [] [] := rfl

theorem ifDemoStuck : ∀ f, runFlat ifDemoProg f ifDemoCells 0 4 [] [] [] = none := by
  intro f
  induction f using Nat.strong_induction_on with
  | _ f ih =>
    match f with
    | 0 => rfl
    | 1 => rfl
    | (k + 2) =>
      rw [ifDemoCycle k]
      exact ih k (by omega)

/-- **C5** (amended): for every condition and body, the code emitted for
`If(cond, body)` is the condition code, `[`, the body code, and `]` directly:
no move back to a flag cell and no `[-]` clear are emitted.  Consequently the
body is skipped when the flag cell is zero, but with a nonzero flag the block
behaves as a loop rather than running exactly once: the compiled
`If(Number 1, [])` program never terminates (its run returns fuel-exhaustion
for every fuel). -/
theorem c5_amended_if_emission (c : BFLCompiler) (cond : BFLNode) (body : List BFLNode) :
    compileNode c (BFLNode.If cond body) =
      (match compileNode c cond with
       | .error e => .error e
       | .ok c1 =>
         match compileSeq (pushChar c1 '[') body with
         | .error e => .error e
         | .ok c2 => .ok (pushChar c2 ']')) ∧
    (compileNode BFLCompiler.new (BFLNode.If (BFLNode.Number 1) [])).map
      (fun cx => cx.output) = .ok ifDemoProg ∧
    ∀ f, run false f (BF.new ifDemoProg Mode.BF host0 []) = none := by
  refine ⟨rfl, rfl, ?_⟩
  intro f
  unfold run
  rw [if_pos (by decide)]
  rw [runLoop_flat false f _ rfl]
  have hstart : runFlat ifDemoProg f (fun _ => 0) 0 0 [] [] [] = none := by
    match f with
    | 0 => rfl
    | 1 => rfl
    | (k + 2) =>
      rw [ifDemoPrefix k]
      exact ifDemoStuck k
  show (runFlat ifDemoProg f (fun _ => 0) 0 0 [] [] []).map
    (packFlat (BF.new ifDemoProg Mode.BF host0 [])) = none
  rw [hstart]
  rfl

/-- **C8** (counterexample): `compile` accepts a `Syscall` node with seven
arguments — there is no `TooManySyscallArgs` error (nor any arity check) in
the compiler. -/
theorem c8_counterexample :
    (compileNode BFLCompiler.new (BFLNode.Syscall (BFLNode.Number 1)
      (List.replicate 7 (BFLNode.Number 2)))).isOk = true := rfl

theorem compileSyscallArgs_numbers : ∀ (args : List BFLNode) (c : BFLCompiler) (pos : Nat),
    (∀ a ∈ args, ∃ m : Int, a = BFLNode.Number m) →
    ∃ c2, compileSyscallArgs c pos args = .ok c2 := by
  intro args
  induction args with
  | nil => intro c pos _; exact ⟨c, rfl⟩
  | cons a rest ih =>
    intro c pos h
    obtain ⟨m, ha⟩ := h a (by simp)
    subst ha
    have hrest : ∀ a ∈ rest, ∃ m : Int, a = BFLNode.Number m :=
      fun a ha => h a (List.mem_cons_of_mem _ ha)
    rcases m with k | k
    · cases k with
      | zero => exact ih c (pos + 1) hrest
      | succ j => exact ih _ (pos + 1) hrest
    · exact ih _ (pos + 1) hrest

/-- **C8** (amended): the compiler performs no arity check on syscall
arguments: a `Syscall` whose number and arguments are all `Number` literals
compiles successfully for ANY number of arguments (the arguments are written
into consecutive cells from cell 1 on, the seventh landing in cell 7 where it
overwrites the syscall number). -/
theorem c8_amended_no_arity_check (c : BFLCompiler) (n : Int) (args : List BFLNode)
    (h : ∀ a ∈ args, ∃ m : Int, a = BFLNode.Number m) :
    ∃ c2, compileNode c (BFLNode.Syscall (BFLNode.Number n) args) = .ok c2 := by
  obtain ⟨c3, hc3⟩ := compileSyscallArgs_numbers args
    (if 0 < n then pushRun (move_to (clearSyscallArea c) 7) '+' (usizeOfInt n)
     else move_to (clearSyscallArea c) 7) 1 h
  have hred : compileNode c (BFLNode.Syscall (BFLNode.Number n) args) =
      match compileSyscallArgs
          (if 0 < n then pushRun (move_to (clearSyscallArea c) 7) '+' (usizeOfInt n)
           else move_to (clearSyscallArea c) 7) 1 args with
      | .error e => .error e
      | .ok c3 => .ok (move_to (pushChar (move_to c3 7) '.') (current_position c)) := rfl
  rw [hred, hc3]
  exact ⟨_, rfl⟩

theorem c8_amended_witness :
    (∀ a ∈ List.replicate 7 (BFLNode.Number 2), ∃ m : Int, a = BFLNode.Number m) ∧
    ∃ c2, compileNode BFLCompiler.new
      (BFLNode.Syscall (BFLNode.Number 1) (List.replicate 7 (BFLNode.Number 2))) = .ok c2 :=
  ⟨fun a ha => ⟨2, List.eq_of_mem_replicate ha⟩,
   c8_amended_no_arity_check BFLCompiler.new 1 (List.replicate 7 (BFLNode.Number 2))
     (fun a ha => ⟨2, List.eq_of_mem_replicate ha⟩)⟩

/-- **C7** (counterexample): `_syscall_result` is NOT pre-bound to cell 0 —
the fresh compiler's table is empty and assigning to `_syscall_result`
allocates cell 8 like any other name; moreover distinct names need not get
distinct cells: after `x,y,z` are allocated at 8,9,10, `Assign(x, Bytes [])`
moves the allocation cursor back to 10, so a later `w` collides with `z`. -/
theorem c7_counterexample :
    get_variable_location BFLCompiler.new ("_syscall_result") = none ∧
    (compileNode BFLCompiler.new
        (BFLNode.Assign ("_syscall_result") (BFLNode.Number 1))).map
      (fun c => get_variable_location c ("_syscall_result")) = .ok (some 8) ∧
    (compileNode BFLCompiler.new (BFLNode.Block
        (BFLNode.Assign ("x") (BFLNode.Number 1) ::
         BFLNode.Assign ("y") (BFLNode.Number 1) ::
         BFLNode.Assign ("z") (BFLNode.Number 1) ::
         BFLNode.Assign ("x") (BFLNode.Bytes []) ::
         BFLNode.Assign ("w") (BFLNode.Number 1) :: []))).map
      (fun c => (get_variable_location c ("z"), get_variable_location c ("w"))) =
      .ok (some 10, some 10) :=
  ⟨rfl, rfl, rfl⟩

/-!
### Claim C7 machinery: what the allocator does guarantee

`CompilerStep c c2` says: assuming every binding of `c` sits at cell 8 or
later and the free cursor is at 8 or later, the same holds of `c2`, and every
binding of `c` survives unchanged into `c2`.
-/

def CompilerStep (c c2 : BFLCompiler) : Prop :=
  8 ≤ c.next_var_location → (∀ p ∈ c.vars, 8 ≤ p.2) →
    (8 ≤ c2.next_var_location ∧ (∀ p ∈ c2.vars, 8 ≤ p.2) ∧
     ∀ name l, List.lookup name c.vars = some l → List.lookup name c2.vars = some l)

theorem CompilerStep.refl (c : BFLCompiler) : CompilerStep c c :=
  fun h1 h2 => ⟨h1, h2, fun _ _ h => h⟩

theorem CompilerStep.trans {a b c : BFLCompiler} (h1 : CompilerStep a b)
    (h2 : CompilerStep b c) : CompilerStep a c := by
  intro ha1 ha2
  obtain ⟨hb1, hb2, hb3⟩ := h1 ha1 ha2
  obtain ⟨hc1, hc2, hc3⟩ := h2 hb1 hb2
  exact ⟨hc1, hc2, fun name l h => hc3 name l (hb3 name l h)⟩

theorem CompilerStep.of_eq {a b : BFLCompiler} (hv : b.vars = a.vars)
    (hn : b.next_var_location = a.next_var_location) : CompilerStep a b := by
  intro h1 h2
  rw [hv, hn]
  exact ⟨h1, h2, fun _ _ h => h⟩

theorem pushStr_vars (c : BFLCompiler) (s : String) : (pushStr c s).vars = c.vars := rfl
theorem pushStr_next (c : BFLCompiler) (s : String) :
    (pushStr c s).next_var_location = c.next_var_location := rfl
theorem pushRun_vars (c : BFLCompiler) (ch : Char) (k : Nat) : (pushRun c ch k).vars = c.vars := rfl
theorem pushRun_next (c : BFLCompiler) (ch : Char) (k : Nat) :
    (pushRun c ch k).next_var_location = c.next_var_location := rfl
theorem pushChar_vars (c : BFLCompiler) (ch : Char) : (pushChar c ch).vars = c.vars := rfl
theorem pushChar_next (c : BFLCompiler) (ch : Char) :
    (pushChar c ch).next_var_location = c.next_var_location := rfl
theorem popChar_vars (c : BFLCompiler) : (popChar c).vars = c.vars := rfl
theorem popChar_next (c : BFLCompiler) :
    (popChar c).next_var_location = c.next_var_location := rfl

theorem move_to_vars (c : BFLCompiler) (l : Nat) : (move_to c l).vars = c.vars := by
  unfold move_to
  dsimp only
  split
  · rfl
  · split <;> rfl

theorem move_to_next (c : BFLCompiler) (l : Nat) :
    (move_to c l).next_var_location = c.next_var_location := by
  unfold move_to
  dsimp only
  split
  · rfl
  · split <;> rfl

theorem foldl_vars {α : Type} (g : BFLCompiler → α → BFLCompiler)
    (hg : ∀ acc x, (g acc x).vars = acc.vars) :
    ∀ (l : List α) (c : BFLCompiler), (List.foldl g c l).vars = c.vars := by
  intro l
  induction l with
  | nil => intro c; rfl
  | cons x xs ih => intro c; rw [List.foldl_cons, ih, hg]

theorem foldl_next {α : Type} (g : BFLCompiler → α → BFLCompiler)
    (hg : ∀ acc x, (g acc x).next_var_location = acc.next_var_location) :
    ∀ (l : List α) (c : BFLCompiler),
      (List.foldl g c l).next_var_location = c.next_var_location := by
  intro l
  induction l with
  | nil => intro c; rfl
  | cons x xs ih => intro c; rw [List.foldl_cons, ih, hg]

theorem pushStringData_vars (c : BFLCompiler) (s : String) :
    (pushStringData c s).vars = c.vars := by
  have h := foldl_vars
    (fun acc ch => pushChar (pushRun (pushStr acc ("[-]")) '+' (Char.toNat ch % 256)) '>')
    (fun acc x => rfl) s.toList c
  unfold pushStringData
  dsimp only
  split
  · exact h
  · rw [popChar_vars, h]

theorem pushStringData_next (c : BFLCompiler) (s : String) :
    (pushStringData c s).next_var_location = c.next_var_location := by
  have h := foldl_next
    (fun acc ch => pushChar (pushRun (pushStr acc ("[-]")) '+' (Char.toNat ch % 256)) '>')
    (fun acc x => rfl) s.toList c
  unfold pushStringData
  dsimp only
  split
  · exact h
  · rw [popChar_next, h]

theorem pushBytesData_vars (c : BFLCompiler) (bs : List Nat) :
    (pushBytesData c bs).vars = c.vars := by
  have h := foldl_vars
    (fun acc b => pushChar (pushRun (pushStr acc ("[-]")) '+' (b % 256)) '>')
    (fun acc x => rfl) bs c
  unfold pushBytesData
  dsimp only
  split
  · exact h
  · rw [popChar_vars, h]

theorem pushBytesData_next (c : BFLCompiler) (bs : List Nat) :
    (pushBytesData c bs).next_var_location = c.next_var_location := by
  have h := foldl_next
    (fun acc b => pushChar (pushRun (pushStr acc ("[-]")) '+' (b % 256)) '>')
    (fun acc x => rfl) bs c
  unfold pushBytesData
  dsimp only
  split
  · exact h
  · rw [popChar_next, h]

theorem clearSyscallArea_vars (c : BFLCompiler) : (clearSyscallArea c).vars = c.vars := by
  unfold clearSyscallArea
  rw [foldl_vars _ (fun acc x => by rw [pushStr_vars, move_to_vars])]

theorem clearSyscallArea_next (c : BFLCompiler) :
    (clearSyscallArea c).next_var_location = c.next_var_location := by
  unfold clearSyscallArea
  rw [foldl_next _ (fun acc x => by rw [pushStr_next, move_to_next])]

theorem allocate_step (c : BFLCompiler) (name : String) :
    CompilerStep c (allocate_variable c name).2 := by
  unfold allocate_variable
  cases hl : List.lookup name c.vars with
  | some l => exact CompilerStep.refl c
  | none =>
    intro h1 h2
    refine ⟨by simp; omega, ?_, ?_⟩
    · intro p hp
      rcases List.mem_cons.mp hp with hp | hp
      · rw [hp]; exact h1
      · exact h2 p hp
    · intro n l h
      have hne : (n == name) = false := by
        by_contra hb
        rw [Bool.not_eq_false] at hb
        rw [(beq_iff_eq ..).mp hb, hl] at h
        exact Option.noConfusion h
      simp only [List.lookup]
      rw [hne]
      exact h

theorem allocate_loc (c : BFLCompiler) (name : String)
    (h1 : 8 ≤ c.next_var_location) (h2 : ∀ p ∈ c.vars, 8 ≤ p.2) :
    8 ≤ (allocate_variable c name).1 := by
  unfold allocate_variable
  cases hl : List.lookup name c.vars with
  | some l =>
    have hmem : (name, l) ∈ c.vars := by
      obtain ⟨l₁, l₂, heq, -⟩ := List.lookup_eq_some_iff.mp hl
      rw [heq]
      exact List.mem_append_right _ (List.mem_cons_self _ _)
    exact h2 _ hmem
  | none => exact h1

attribute [simp] pushStr_vars pushStr_next pushRun_vars pushRun_next pushChar_vars pushChar_next popChar_vars popChar_next move_to_vars move_to_next pushStringData_vars pushStringData_next pushBytesData_vars pushBytesData_next clearSyscallArea_vars clearSyscallArea_next

/-- Induction step for `compileNode`: assuming the allocator invariant is
preserved by all compilations of measure `≤ k`, it is preserved by nodes of
measure `≤ k + 1`. -/
theorem compileNode_step_aux (k : Nat)
    (ihN : ∀ (node : BFLNode), sizeOf node ≤ k → ∀ (c c2 : BFLCompiler),
      compileNode c node = .ok c2 → CompilerStep c c2)
    (ihS : ∀ (stmts : List BFLNode), sizeOf stmts ≤ k → ∀ (c c2 : BFLCompiler),
      compileSeq c stmts = .ok c2 → CompilerStep c c2)
    (ihA : ∀ (args : List BFLNode), sizeOf args ≤ k →
      ∀ (c : BFLCompiler) (pos : Nat) (c2 : BFLCompiler),
      compileSyscallArgs c pos args = .ok c2 → CompilerStep c c2)
    (ihD : ∀ (stmts : List BFLNode), sizeOf stmts ≤ k →
      ∀ (c : BFLCompiler) (ds off : Nat) (c2 : BFLCompiler),
      compileAssignBlockStmts c ds off stmts = .ok c2 → CompilerStep c c2) :
    ∀ (node : BFLNode), sizeOf node ≤ k + 1 → ∀ (c c2 : BFLCompiler),
      compileNode c node = .ok c2 → CompilerStep c c2 := by
  intro node hsz c c2 hok
  unfold compileNode at hok
  split at hok
  all_goals (try dsimp only at hok)
  all_goals (repeat' split at hok)
  all_goals (try (exfalso; exact Except.noConfusion hok))
  -- `.Number n`
  · rw [Except.ok.injEq] at hok
    subst hok
    exact CompilerStep.of_eq (by simp) (by simp)
  -- `.Str s`
  · rw [Except.ok.injEq] at hok
    subst hok
    exact CompilerStep.of_eq (by simp) (by simp)
  -- `.Bytes bs`
  · rw [Except.ok.injEq] at hok
    subst hok
    exact CompilerStep.of_eq (by simp) (by simp)
  -- `.Variable name`
  · rename_i name
    rw [Except.ok.injEq] at hok
    subst hok
    exact (allocate_step c name).trans (CompilerStep.of_eq (by simp) (by simp))
  -- `.Assign name (.Str s)`
  · rename_i name s
    rw [Except.ok.injEq] at hok
    subst hok
    intro h1 h2
    obtain ⟨ha1, ha2, ha3⟩ := allocate_step c name h1 h2
    have hloc := allocate_loc c name h1 h2
    refine ⟨by dsimp only; omega, ?_, ?_⟩
    · intro p hp
      dsimp only at hp
      simp only [pushStringData_vars, move_to_vars, pushRun_vars, pushStr_vars] at hp
      exact ha2 p hp
    · intro nm l hl
      dsimp only
      simp only [pushStringData_vars, move_to_vars, pushRun_vars, pushStr_vars]
      exact ha3 nm l hl
  -- `.Assign name (.Bytes bs)`
  · rename_i name bs
    rw [Except.ok.injEq] at hok
    subst hok
    intro h1 h2
    obtain ⟨ha1, ha2, ha3⟩ := allocate_step c name h1 h2
    have hloc := allocate_loc c name h1 h2
    refine ⟨by dsimp only; omega, ?_, ?_⟩
    · intro p hp
      dsimp only at hp
      simp only [pushBytesData_vars, move_to_vars, pushRun_vars, pushStr_vars] at hp
      exact ha2 p hp
    · intro nm l hl
      dsimp only
      simp only [pushBytesData_vars, move_to_vars, pushRun_vars, pushStr_vars]
      exact ha3 nm l hl
  -- `.Assign name (.Block statements)`
  · rename_i name statements x c3 heq
    rw [Except.ok.injEq] at hok
    subst hok
    intro h1 h2
    have hloc := allocate_loc c name h1 h2
    have s1 : CompilerStep c
        (pushRun (pushStr (move_to (allocate_variable c name).2 (allocate_variable c name).1)
          ("[-]")) '+' ((allocate_variable c name).1 + 1)) :=
      (allocate_step c name).trans (CompilerStep.of_eq (by simp) (by simp))
    have s2 := ihD statements (by simp at hsz; omega) _ _ _ _ heq
    obtain ⟨hb1, hb2, hb3⟩ := (s1.trans s2) h1 h2
    refine ⟨by dsimp only; omega, ?_, ?_⟩
    · intro p hp
      dsimp only at hp
      exact hb2 p hp
    · intro nm l hl
      dsimp only
      exact hb3 nm l hl
  -- `.Assign name expr` (default)
  · rename_i name expr hxs hxb hxk
    exact ((allocate_step c name).trans (CompilerStep.of_eq (by simp) (by simp))).trans
      (ihN expr (by simp at hsz; omega) _ _ hok)
  -- `.Add (.Variable name) (.Number offset)`
  · rename_i name offset
    rw [Except.ok.injEq] at hok
    subst hok
    exact (allocate_step c name).trans (CompilerStep.of_eq (by simp) (by simp))
  -- `.Add l r` (default)
  · rename_i l r hex x c3 heq
    exact ((ihN l (by simp at hsz; omega) _ _ heq).trans
      (CompilerStep.of_eq (by simp) (by simp))).trans
      (ihN r (by simp at hsz; omega) _ _ hok)
  -- `.Sub (.Variable name) r`
  · rename_i name r x c3 heq
    rw [Except.ok.injEq] at hok
    subst hok
    exact (((allocate_step c name).trans (CompilerStep.of_eq (by simp) (by simp))).trans
      (ihN r (by simp at hsz; omega) _ _ heq)).trans
      (CompilerStep.of_eq (by simp) (by simp))
  -- `.Sub l r` (default)
  · rename_i l r hex x1 c31 heq1 x c3 heq
    rw [Except.ok.injEq] at hok
    subst hok
    exact (((ihN l (by simp at hsz; omega) _ _ heq1).trans
      (CompilerStep.of_eq (by simp) (by simp))).trans
      (ihN r (by simp at hsz; omega) _ _ heq)).trans
      (CompilerStep.of_eq (by simp) (by simp))
  -- `.If cond body`
  · rename_i cond body x1 c31 heq1 x c3 heq
    rw [Except.ok.injEq] at hok
    subst hok
    exact (((ihN cond (by simp at hsz; omega) _ _ heq1).trans
      (CompilerStep.of_eq (by simp) (by simp))).trans
      (ihS body (by simp at hsz; omega) _ _ heq)).trans
      (CompilerStep.of_eq (by simp) (by simp))
  -- `.While cond body`
  · rename_i cond body x1 c31 heq1 x c3 heq
    rw [Except.ok.injEq] at hok
    subst hok
    exact (((ihN cond (by simp at hsz; omega) _ _ heq1).trans
      (CompilerStep.of_eq (by simp) (by simp))).trans
      (ihS body (by simp at hsz; omega) _ _ heq)).trans
      (CompilerStep.of_eq (by simp) (by simp))
  -- `.Syscall (.Number n) args`
  · rename_i n args x c3 heq
    rw [Except.ok.injEq] at hok
    subst hok
    have s0 : CompilerStep c
        (if 0 < n then pushRun (move_to (clearSyscallArea c) 7) '+' (usizeOfInt n)
         else move_to (clearSyscallArea c) 7) := by
      split <;> exact CompilerStep.of_eq (by simp) (by simp)
    exact (s0.trans (ihA args (by simp at hsz; omega) _ _ _ heq)).trans
      (CompilerStep.of_eq (by simp) (by simp))
  -- `.Syscall number args` (default)
  · rename_i number args hex x1 c31 heq1 x c3 heq
    rw [Except.ok.injEq] at hok
    subst hok
    exact (((CompilerStep.of_eq (by simp) (by simp)).trans
      (ihN number (by simp at hsz; omega) _ _ heq1)).trans
      (ihA args (by simp at hsz; omega) _ _ _ heq)).trans
      (CompilerStep.of_eq (by simp) (by simp))
  -- `.Block stmts`
  · rename_i stmts
    exact ihS stmts (by simp at hsz; omega) _ _ hok

/-- Induction step for `compileSeq`. -/
theorem compileSeq_step_aux (k : Nat)
    (ihN : ∀ (node : BFLNode), sizeOf node ≤ k → ∀ (c c2 : BFLCompiler),
      compileNode c node = .ok c2 → CompilerStep c c2)
    (ihS : ∀ (stmts : List BFLNode), sizeOf stmts ≤ k → ∀ (c c2 : BFLCompiler),
      compileSeq c stmts = .ok c2 → CompilerStep c c2) :
    ∀ (stmts : List BFLNode), sizeOf stmts ≤ k + 1 → ∀ (c c2 : BFLCompiler),
      compileSeq c stmts = .ok c2 → CompilerStep c c2 := by
  intro stmts hsz c c2 hok
  unfold compileSeq at hok
  split at hok
  all_goals (repeat' split at hok)
  all_goals (try (exfalso; exact Except.noConfusion hok))
  -- `[]`
  · rw [Except.ok.injEq] at hok
    subst hok
    exact CompilerStep.refl c
  -- `stmt :: rest`
  · rename_i stmt rest x c1 heq
    exact (ihN stmt (by simp at hsz; omega) _ _ heq).trans
      (ihS rest (by simp at hsz; omega) _ _ hok)

/-- Induction step for `compileSyscallBlockStmts`. -/
theorem compileSyscallBlockStmts_step_aux (k : Nat)
    (ihN : ∀ (node : BFLNode), sizeOf node ≤ k → ∀ (c c2 : BFLCompiler),
      compileNode c node = .ok c2 → CompilerStep c c2)
    (ihB : ∀ (stmts : List BFLNode), sizeOf stmts ≤ k →
      ∀ (c : BFLCompiler) (pos : Nat) (r : BFLCompiler × Nat),
      compileSyscallBlockStmts c pos stmts = .ok r → CompilerStep c r.1) :
    ∀ (stmts : List BFLNode), sizeOf stmts ≤ k + 1 →
      ∀ (c : BFLCompiler) (pos : Nat) (r : BFLCompiler × Nat),
      compileSyscallBlockStmts c pos stmts = .ok r → CompilerStep c r.1 := by
  intro stmts hsz c pos r hok
  unfold compileSyscallBlockStmts at hok
  split at hok
  all_goals (try dsimp only at hok)
  all_goals (repeat' split at hok)
  all_goals (try (exfalso; exact Except.noConfusion hok))
  -- `[]`
  · rw [Except.ok.injEq] at hok
    subst hok
    exact CompilerStep.refl c
  -- `.Number n :: rest`, `0 < n`
  · rename_i n rest hn
    exact (CompilerStep.of_eq (by simp) (by simp)).trans
      (ihB rest (by simp at hsz; omega) _ _ _ hok)
  -- `.Number n :: rest`, `¬ 0 < n`
  · rename_i n rest hn
    exact (CompilerStep.of_eq (by simp) (by simp)).trans
      (ihB rest (by simp at hsz; omega) _ _ _ hok)
  -- `stmt :: rest` (default)
  · rename_i stmt rest hex x c1 heq
    exact ((CompilerStep.of_eq (by simp) (by simp)).trans
      (ihN stmt (by simp at hsz; omega) _ _ heq)).trans
      (ihB rest (by simp at hsz; omega) _ _ _ hok)

/-- Induction step for `compileSyscallArgs`. -/
theorem compileSyscallArgs_step_aux (k : Nat)
    (ihN : ∀ (node : BFLNode), sizeOf node ≤ k → ∀ (c c2 : BFLCompiler),
      compileNode c node = .ok c2 → CompilerStep c c2)
    (ihA : ∀ (args : List BFLNode), sizeOf args ≤ k →
      ∀ (c : BFLCompiler) (pos : Nat) (c2 : BFLCompiler),
      compileSyscallArgs c pos args = .ok c2 → CompilerStep c c2)
    (ihB : ∀ (stmts : List BFLNode), sizeOf stmts ≤ k →
      ∀ (c : BFLCompiler) (pos : Nat) (r : BFLCompiler × Nat),
      compileSyscallBlockStmts c pos stmts = .ok r → CompilerStep c r.1) :
    ∀ (args : List BFLNode), sizeOf args ≤ k + 1 →
      ∀ (c : BFLCompiler) (pos : Nat) (c2 : BFLCompiler),
      compileSyscallArgs c pos args = .ok c2 → CompilerStep c c2 := by
  intro args hsz c pos c2 hok
  unfold compileSyscallArgs at hok
  split at hok
  all_goals (try dsimp only at hok)
  all_goals (repeat' split at hok)
  all_goals (try (exfalso; exact Except.noConfusion hok))
  -- `[]`
  · rw [Except.ok.injEq] at hok
    subst hok
    exact CompilerStep.refl c
  -- `.Number 0 :: rest`
  · rename_i rest
    exact ihA rest (by simp at hsz; omega) _ _ _ hok
  -- `.Block statements :: rest`
  · rename_i statements rest x rr heq
    exact (ihB statements (by simp at hsz; omega) _ _ _ heq).trans
      (ihA rest (by simp at hsz; omega) _ _ _ hok)
  -- `.Variable name :: rest`, lookup hit
  · rename_i name rest x var_loc heq
    exact (CompilerStep.of_eq (by simp) (by simp)).trans
      (ihA rest (by simp at hsz; omega) _ _ _ hok)
  -- `.Number n :: rest`, `0 < n`
  · rename_i n rest hex hn
    exact (CompilerStep.of_eq (by simp) (by simp)).trans
      (ihA rest (by simp at hsz; omega) _ _ _ hok)
  -- `.Number n :: rest`, `¬ 0 < n`
  · rename_i n rest hex hn
    exact (CompilerStep.of_eq (by simp) (by simp)).trans
      (ihA rest (by simp at hsz; omega) _ _ _ hok)
  -- `arg :: rest` (default)
  · rename_i arg rest hex1 hex2 hex3 hex4 x c1 heq
    exact ((CompilerStep.of_eq (by simp) (by simp)).trans
      (ihN arg (by simp at hsz; omega) _ _ heq)).trans
      (ihA rest (by simp at hsz; omega) _ _ _ hok)

/-- Induction step for `compileAssignBlockStmts`. -/
theorem compileAssignBlockStmts_step_aux (k : Nat)
    (ihN : ∀ (node : BFLNode), sizeOf node ≤ k → ∀ (c c2 : BFLCompiler),
      compileNode c node = .ok c2 → CompilerStep c c2)
    (ihD : ∀ (stmts : List BFLNode), sizeOf stmts ≤ k →
      ∀ (c : BFLCompiler) (ds off : Nat) (c2 : BFLCompiler),
      compileAssignBlockStmts c ds off stmts = .ok c2 → CompilerStep c c2) :
    ∀ (stmts : List BFLNode), sizeOf stmts ≤ k + 1 →
      ∀ (c : BFLCompiler) (ds off : Nat) (c2 : BFLCompiler),
      compileAssignBlockStmts c ds off stmts = .ok c2 → CompilerStep c c2 := by
  intro stmts hsz c ds off c2 hok
  unfold compileAssignBlockStmts at hok
  split at hok
  all_goals (try dsimp only at hok)
  all_goals (repeat' split at hok)
  all_goals (try (exfalso; exact Except.noConfusion hok))
  -- `[]`
  · rw [Except.ok.injEq] at hok
    subst hok
    exact CompilerStep.refl c
  -- `.Number n :: rest`, `0 < n`
  · rename_i n rest hn
    exact (CompilerStep.of_eq (by simp) (by simp)).trans
      (ihD rest (by simp at hsz; omega) _ _ _ _ hok)
  -- `.Number n :: rest`, `¬ 0 < n`
  · rename_i n rest hn
    exact (CompilerStep.of_eq (by simp) (by simp)).trans
      (ihD rest (by simp at hsz; omega) _ _ _ _ hok)
  -- `stmt :: rest` (default)
  · rename_i stmt rest hex x c1 heq
    exact ((CompilerStep.of_eq (by simp) (by simp)).trans
      (ihN stmt (by simp at hsz; omega) _ _ heq)).trans
      (ihD rest (by simp at hsz; omega) _ _ _ _ hok)

/-- The allocator invariant holds at every measure, for all five mutually
recursive compilation functions simultaneously. -/
theorem compileStep_all : ∀ (k : Nat),
    (∀ (node : BFLNode), sizeOf node ≤ k → ∀ (c c2 : BFLCompiler),
      compileNode c node = .ok c2 → CompilerStep c c2) ∧
    (∀ (stmts : List BFLNode), sizeOf stmts ≤ k → ∀ (c c2 : BFLCompiler),
      compileSeq c stmts = .ok c2 → CompilerStep c c2) ∧
    (∀ (args : List BFLNode), sizeOf args ≤ k →
      ∀ (c : BFLCompiler) (pos : Nat) (c2 : BFLCompiler),
      compileSyscallArgs c pos args = .ok c2 → CompilerStep c c2) ∧
    (∀ (stmts : List BFLNode), sizeOf stmts ≤ k →
      ∀ (c : BFLCompiler) (pos : Nat) (r : BFLCompiler × Nat),
      compileSyscallBlockStmts c pos stmts = .ok r → CompilerStep c r.1) ∧
    (∀ (stmts : List BFLNode), sizeOf stmts ≤ k →
      ∀ (c : BFLCompiler) (ds off : Nat) (c2 : BFLCompiler),
      compileAssignBlockStmts c ds off stmts = .ok c2 → CompilerStep c c2) := by
  intro k
  induction k with
  | zero =>
    refine ⟨?_, ?_, ?_, ?_, ?_⟩
    · intro node hsz
      exfalso
      cases node <;> simp at hsz
    · intro stmts hsz
      exfalso
      cases stmts <;> simp at hsz
    · intro args hsz
      exfalso
      cases args <;> simp at hsz
    · intro stmts hsz
      exfalso
      cases stmts <;> simp at hsz
    · intro stmts hsz
      exfalso
      cases stmts <;> simp at hsz
  | succ k ih =>
    obtain ⟨ihN, ihS, ihA, ihB, ihD⟩ := ih
    exact ⟨compileNode_step_aux k ihN ihS ihA ihD,
      compileSeq_step_aux k ihN ihS,
      compileSyscallArgs_step_aux k ihN ihA ihB,
      compileSyscallBlockStmts_step_aux k ihN ihB,
      compileAssignBlockStmts_step_aux k ihN ihD⟩

/-- **C7** (amended): what `allocate_variable` does guarantee.  Starting from
any compiler state whose free cursor and bound cells are all at index 8 or
later (in particular from `BFLCompiler::new`, where the table is empty and
the cursor is 8), a successful compilation keeps the cursor and every bound
cell at index 8 or later, and a name bound before compilation keeps exactly
its old cell afterwards (first-encounter allocation is never re-bound).  No
name is pre-bound — `_syscall_result` included — and distinct names need not
get distinct cells. -/
theorem c7_amended_variable_allocation (node : BFLNode) (c c2 : BFLCompiler)
    (hok : compileNode c node = .ok c2)
    (h1 : 8 ≤ c.next_var_location) (h2 : ∀ p ∈ c.vars, 8 ≤ p.2) :
    8 ≤ c2.next_var_location ∧ (∀ p ∈ c2.vars, 8 ≤ p.2) ∧
      ∀ name l, List.lookup name c.vars = some l → List.lookup name c2.vars = some l :=
  (compileStep_all (sizeOf node)).1 node (Nat.le_refl _) c c2 hok h1 h2

theorem c7_amended_witness :
    8 ≤ (9 : Nat) ∧
    (∀ p ∈ ((("x"), 8) :: [] : List (String × Nat)), 8 ≤ p.2) ∧
    (∀ name l, List.lookup name (BFLCompiler.new.vars) = some l →
      List.lookup name ((("x"), 8) :: [] : List (String × Nat)) = some l) :=
  c7_amended_variable_allocation (BFLNode.Assign ("x") (BFLNode.Number 1))
    BFLCompiler.new ⟨(("x"), 8) :: [], 9, (">>>>>>>>[-][-]+").toList⟩
    rfl (by decide) (by decide)
